import Mathlib

/-!
Verification of `src/midterm/compiler.py`: a four-stage pipeline
(lexer, recursive-descent parser, bytecode code generator, stack VM)
for a minimal imperative arithmetic language.

The Python code is embedded shallowly:
* the lexer works on the remaining character list (Python advances a
  monotone `pos` cursor; only the suffix from `pos` is ever inspected);
* the parser's loops and mutual recursion are modelled with explicit
  fuel, an exhausted fuel budget surfacing as the distinguished error
  `Err.outOfFuel` (so `∀ fuel, … = outOfFuel` models non-termination);
* Python exceptions become constructors of `Err`
  (`Exception "Unknown character: c"` → `lexError c`,
   `Exception "Expected X, got Y"` → `parseError X Y`,
   `TypeError` from subscripting `None` → `typeError`,
   `KeyError` in the codegen `ops` dict → `opKeyError`,
   `KeyError` in `VM.vars` → `undefinedVar`,
   `ZeroDivisionError` → `zeroDivision`,
   `IndexError` from `list.pop()` on `[]` → `stackUnderflow`);
* Python `//` is floor division, embedded as `Int.fdiv`;
* `print(v)` appends the decimal rendering of `v` to the output list.
-/

set_option maxRecDepth 100000

/-- Error taxonomy of the pipeline; each constructor models one Python
exception site (see module docstring). `outOfFuel` is the fuel marker. -/
inductive Err where
  | lexError (c : Char)
  | parseError (expected got : String)
  | typeError
  | opKeyError (op : String)
  | undefinedVar (name : String)
  | zeroDivision
  | stackUnderflow
  | outOfFuel
deriving DecidableEq, Repr

/-- Token kinds: the Python module-level constants NUMBER, PLUS, …, EOF. -/
inductive TokenType where
  | NUMBER | PLUS | MINUS | TIMES | DIVIDE | LPAREN | RPAREN
  | IDENT | ASSIGN | PRINT | EOF
deriving DecidableEq, Repr

/-- The string the Python constant holds, used in parse-error messages. -/
def TokenType.str : TokenType → String
  | .NUMBER => "NUMBER" | .PLUS => "PLUS" | .MINUS => "MINUS"
  | .TIMES => "TIMES" | .DIVIDE => "DIVIDE" | .LPAREN => "LPAREN"
  | .RPAREN => "RPAREN" | .IDENT => "IDENT" | .ASSIGN => "ASSIGN"
  | .PRINT => "PRINT" | .EOF => "EOF"

/-- `Token`: a kind plus its payload (`value` in Python: an int for
NUMBER, a name for IDENT, `None` otherwise). -/
inductive Token where
  | NUMBER (n : Nat)
  | IDENT (s : String)
  | PLUS | MINUS | TIMES | DIVIDE | LPAREN | RPAREN | ASSIGN | PRINT | EOF
deriving DecidableEq, Repr

/-- `token.type` in Python. -/
def Token.type : Token → TokenType
  | .NUMBER _ => .NUMBER
  | .IDENT _ => .IDENT
  | .PLUS => .PLUS | .MINUS => .MINUS | .TIMES => .TIMES
  | .DIVIDE => .DIVIDE | .LPAREN => .LPAREN | .RPAREN => .RPAREN
  | .ASSIGN => .ASSIGN | .PRINT => .PRINT | .EOF => .EOF

/-- ASCII reading of Python `str.isspace` (the whitespace characters of
the ASCII range; all inputs in play are ASCII). -/
def pyIsSpace (c : Char) : Bool :=
  c == ' ' || c == '\t' || c == '\n' || c == '\x0d' || c == '\x0b' || c == '\x0c'

/-- The `while … isspace(): pos += 1` loop of `Lexer.next_token`. -/
def skipSpaces : List Char → List Char
  | [] => []
  | c :: cs => if pyIsSpace c then skipSpaces cs else c :: cs

/-- `int(text[start:pos])` on a run of decimal digits. -/
def digitsToNat (ds : List Char) : Nat :=
  ds.foldl (fun a c => a * 10 + (c.toNat - 48)) 0

/-- `Lexer.next_token`, on the remaining input. Returns the token and
the input remaining after it, or the unknown character (the Python
`Exception(f"Unknown character: {char}")`). -/
def nextToken (input : List Char) : Except Err (Token × List Char) :=
  let cs := skipSpaces input
  match cs with
  | [] => .ok (.EOF, [])
  | c :: rest =>
    if c.isDigit then
      .ok (.NUMBER (digitsToNat (cs.takeWhile Char.isDigit)), cs.dropWhile Char.isDigit)
    else if c.isAlpha then
      let word := String.mk (cs.takeWhile Char.isAlphanum)
      let rest' := cs.dropWhile Char.isAlphanum
      if word == "print" then .ok (.PRINT, rest') else .ok (.IDENT word, rest')
    else if c == '+' then .ok (.PLUS, rest)
    else if c == '-' then .ok (.MINUS, rest)
    else if c == '*' then .ok (.TIMES, rest)
    else if c == '/' then .ok (.DIVIDE, rest)
    else if c == '(' then .ok (.LPAREN, rest)
    else if c == ')' then .ok (.RPAREN, rest)
    else if c == '=' then .ok (.ASSIGN, rest)
    else .error (.lexError c)

example : nextToken "  12ab".data = .ok (.NUMBER 12, ['a', 'b']) := rfl
example : nextToken "print y".data = .ok (.PRINT, [' ', 'y']) := rfl
example : nextToken "printy".data = .ok (.IDENT "printy", []) := rfl
example : nextToken "& 2".data = .error (.lexError '&') := rfl
example : nextToken "".data = .ok (.EOF, []) := rfl

/-- AST nodes: the Python tuples `('number', v)`, `('var', n)`,
`('binop', op, l, r)`, `('assign', n, e)`, `('print', e)`.  A slot that
holds a node in Python can also hold `None` (the fall-through return of
`factor` or `statement`), embedded as the extra variant `pyNone`; the
operator slot holds the token-type constant. -/
inductive Node where
  | pyNone
  | number (n : Nat)
  | var (s : String)
  | binop (op : TokenType) (l r : Node)
  | assign (name : String) (e : Node)
  | print (e : Node)
deriving DecidableEq, Repr

/-- Parser state: the remaining (unlexed) input and the current token
(`self.token`), as held by the Python `Parser`. -/
structure PState where
  rest : List Char
  token : Token
deriving Repr

/-- `Parser.__init__`: pull the first token. -/
def mkPState (input : List Char) : Except Err PState := do
  let (tok, rest) ← nextToken input
  .ok ⟨rest, tok⟩

/-- `Parser.eat`: advance past the current token when it has the
expected type, else raise `Expected …, got …`. -/
def eat (t : TokenType) (st : PState) : Except Err PState :=
  if st.token.type = t then do
    let (tok, rest) ← nextToken st.rest
    .ok ⟨rest, tok⟩
  else
    .error (.parseError t.str st.token.type.str)

mutual

/-- `Parser.factor`.  On a token that is not NUMBER, IDENT or LPAREN the
Python method falls through and returns `None` without consuming
anything — hence the `pyNone` result and the unchanged state. -/
def factor : Nat → PState → Except Err (Node × PState)
  | 0, _ => .error .outOfFuel
  | fuel + 1, st =>
    match st.token with
    | .NUMBER n => do
      let st' ← eat .NUMBER st
      .ok (.number n, st')
    | .IDENT s => do
      let st' ← eat .IDENT st
      .ok (.var s, st')
    | .LPAREN => do
      let st' ← eat .LPAREN st
      let (node, st'') ← expr fuel st'
      let st''' ← eat .RPAREN st''
      .ok (node, st''')
    | _ => .ok (.pyNone, st)

/-- The `while self.token.type in (TIMES, DIVIDE)` loop of `Parser.term`. -/
def termLoop : Nat → Node → PState → Except Err (Node × PState)
  | 0, _, _ => .error .outOfFuel
  | fuel + 1, node, st =>
    if st.token.type = .TIMES ∨ st.token.type = .DIVIDE then do
      let op := st.token.type
      let st' ← eat op st
      let (rhs, st'') ← factor fuel st'
      termLoop fuel (.binop op node rhs) st''
    else
      .ok (node, st)

/-- `Parser.term`. -/
def term : Nat → PState → Except Err (Node × PState)
  | 0, _ => .error .outOfFuel
  | fuel + 1, st => do
    let (node, st') ← factor fuel st
    termLoop fuel node st'

/-- The `while self.token.type in (PLUS, MINUS)` loop of `Parser.expr`. -/
def exprLoop : Nat → Node → PState → Except Err (Node × PState)
  | 0, _, _ => .error .outOfFuel
  | fuel + 1, node, st =>
    if st.token.type = .PLUS ∨ st.token.type = .MINUS then do
      let op := st.token.type
      let st' ← eat op st
      let (rhs, st'') ← term fuel st'
      exprLoop fuel (.binop op node rhs) st''
    else
      .ok (node, st)

/-- `Parser.expr`. -/
def expr : Nat → PState → Except Err (Node × PState)
  | 0, _ => .error .outOfFuel
  | fuel + 1, st => do
    let (node, st') ← term fuel st
    exprLoop fuel node st'

end

/-- `Parser.statement`.  On a token that is neither IDENT nor PRINT the
Python method falls through: it returns `None` and consumes nothing. -/
def statement : Nat → PState → Except Err (Node × PState)
  | 0, _ => .error .outOfFuel
  | fuel + 1, st =>
    match st.token with
    | .IDENT s => do
      let st' ← eat .IDENT st
      let st'' ← eat .ASSIGN st'
      let (e, st''') ← expr fuel st''
      .ok (.assign s e, st''')
    | .PRINT => do
      let st' ← eat .PRINT st
      let (e, st'') ← expr fuel st'
      .ok (.print e, st'')
    | _ => .ok (.pyNone, st)

/-- The `while self.token.type != EOF` loop of `Parser.parse`
(accumulator holds the statements in reverse). -/
def parseLoop : Nat → PState → List Node → Except Err (List Node)
  | 0, _, _ => .error .outOfFuel
  | fuel + 1, st, acc =>
    if st.token.type = .EOF then .ok acc.reverse
    else do
      let (s, st') ← statement fuel st
      parseLoop fuel st' (s :: acc)

/-- `Parser.parse` on a whole input string. -/
def parse (fuel : Nat) (input : List Char) : Except Err (List Node) := do
  let st ← mkPState input
  parseLoop fuel st []

example : parse 99 "x = 3 + 4 * 2".data =
    .ok [.assign "x" (.binop .PLUS (.number 3)
      (.binop .TIMES (.number 4) (.number 2)))] := rfl
example : parse 99 "print (1 + 2) * 3".data =
    .ok [.print (.binop .TIMES
      (.binop .PLUS (.number 1) (.number 2)) (.number 3))] := rfl
example : parse 99 "x 3".data = .error (.parseError "ASSIGN" "NUMBER") := rfl
example : parse 99 "1 = 2".data = .error .outOfFuel := rfl

/-- Bytecode instructions: the tuples `('PUSH', v)`, `('LOAD', n)`,
`('STORE', n)`, `('ADD',)`, `('SUB',)`, `('MUL',)`, `('DIV',)`,
`('PRINT',)`. -/
inductive Instr where
  | PUSH (n : Int)
  | LOAD (name : String)
  | STORE (name : String)
  | ADD | SUB | MUL | DIV | PRINT
deriving DecidableEq, Repr

/-- The codegen dict `ops = {'PLUS': 'ADD', 'MINUS': 'SUB',
'TIMES': 'MUL', 'DIVIDE': 'DIV'}`; `none` models a `KeyError`. -/
def opsMap : TokenType → Option Instr
  | .PLUS => some .ADD
  | .MINUS => some .SUB
  | .TIMES => some .MUL
  | .DIVIDE => some .DIV
  | _ => none

/-- `CodeGen.gen`: the instructions one node appends to
`self.bytecode`.  `gen .pyNone` models Python subscripting `None`
(`node[0]` raises a `TypeError`). -/
def gen : Node → Except Err (List Instr)
  | .pyNone => .error .typeError
  | .number n => .ok [.PUSH n]
  | .var s => .ok [.LOAD s]
  | .binop op l r => do
    let cl ← gen l
    let cr ← gen r
    match opsMap op with
    | some i => .ok (cl ++ cr ++ [i])
    | none => .error (.opKeyError op.str)
  | .assign name e => do
    let c ← gen e
    .ok (c ++ [.STORE name])
  | .print e => do
    let c ← gen e
    .ok (c ++ [.PRINT])

/-- The `for stmt in ast: codegen.gen(stmt)` loop of `run_compiler`. -/
def genProgram : List Node → Except Err (List Instr)
  | [] => .ok []
  | stmt :: rest => do
    let c ← gen stmt
    let cs ← genProgram rest
    .ok (c ++ cs)

/-- VM state: operand stack (head = top = end of the Python list),
variable store (`self.vars`, a dict) and the output printed so far. -/
structure VMState where
  stack : List Int
  vars : String → Option Int
  output : List Int

/-- The dict assignment `self.vars[name] = val` (last write wins). -/
def updateVar (env : String → Option Int) (name : String) (v : Int) :
    String → Option Int :=
  fun m => if m = name then some v else env m

/-- Initial VM state: empty stack, empty store, nothing printed. -/
def VMState.init : VMState := ⟨[], fun _ => none, []⟩

/-- One iteration of the dispatch in `VM.run`.  Pop order for the
arithmetic instructions follows `b, a = pop(), pop()`: `b` is the top
(pushed last), `a` is beneath it. -/
def step (i : Instr) (s : VMState) : Except Err VMState :=
  match i with
  | .PUSH n => .ok { s with stack := n :: s.stack }
  | .LOAD name =>
    match s.vars name with
    | some v => .ok { s with stack := v :: s.stack }
    | none => .error (.undefinedVar name)
  | .STORE name =>
    match s.stack with
    | v :: rest => .ok ⟨rest, updateVar s.vars name v, s.output⟩
    | [] => .error .stackUnderflow
  | .ADD =>
    match s.stack with
    | b :: a :: rest => .ok { s with stack := (a + b) :: rest }
    | _ => .error .stackUnderflow
  | .SUB =>
    match s.stack with
    | b :: a :: rest => .ok { s with stack := (a - b) :: rest }
    | _ => .error .stackUnderflow
  | .MUL =>
    match s.stack with
    | b :: a :: rest => .ok { s with stack := (a * b) :: rest }
    | _ => .error .stackUnderflow
  | .DIV =>
    match s.stack with
    | b :: a :: rest =>
      if b = 0 then .error .zeroDivision
      else .ok { s with stack := (a.fdiv b) :: rest }
    | _ => .error .stackUnderflow
  | .PRINT =>
    match s.stack with
    | v :: rest => .ok { s with stack := rest, output := s.output ++ [v] }
    | [] => .error .stackUnderflow

/-- `VM.run`: execute in sequence, stopping at the first exception.
Returns the state reached (whose `output` is what was actually printed
before any failure) and the exception, if one was raised. -/
def run : List Instr → VMState → VMState × Option Err
  | [], s => (s, none)
  | i :: is, s =>
    match step i s with
    | .ok s' => run is s'
    | .error e => (s, some e)

/-- Result of `run_compiler`: the printed lines, and on failure also
the exception that halted the pipeline. -/
inductive RunResult where
  | ok (output : List String)
  | err (output : List String) (e : Err)
deriving Repr

/-- `run_compiler`: lex+parse, generate code for every statement, then
execute on a fresh VM.  A lexer/parser/codegen exception halts before
anything is printed; a VM exception keeps the lines already printed. -/
def runCompiler (fuel : Nat) (source : String) : RunResult :=
  match parse fuel source.data with
  | .error e => .err [] e
  | .ok ast =>
    match genProgram ast with
    | .error e => .err [] e
    | .ok code =>
      match run code VMState.init with
      | (s, none) => .ok (s.output.map toString)
      | (s, some e) => .err (s.output.map toString) e

example : runCompiler 99 "x = 3 + 4 * 2\ny = x - 5\nprint y" = .ok ["6"] := rfl
example : runCompiler 99 "print 10 / 3" = .ok ["3"] := rfl
example : runCompiler 99 "print (0 - 7) / 2" = .ok ["-4"] := rfl
example : runCompiler 99 "print z" = .err [] (.undefinedVar "z") := rfl
example : runCompiler 99 "x = 3 & 2" = .err [] (.lexError '&') := rfl
example : runCompiler 99 "print 1 / 0" = .err [] .zeroDivision := rfl
example : runCompiler 99 "print 1\nprint 2 / 0" = .err ["1"] .zeroDivision := rfl

/-- The message of the exception the lexer raises on an unrecognized
character: `f"Unknown character: {char}"`. -/
def lexErrorMessage (c : Char) : String :=
  "Unknown character: " ++ String.mk [c]

/-- The operator token types that may sit in a `binop` node. -/
def isBinOpTok (t : TokenType) : Bool :=
  t == .PLUS || t == .MINUS || t == .TIMES || t == .DIVIDE

/-- A well-formed expression AST (the shape §3 of the spec describes:
number / variable / binary operation, with no `None` holes). -/
def exprWF : Node → Bool
  | .number _ => true
  | .var _ => true
  | .binop op l r => isBinOpTok op && exprWF l && exprWF r
  | _ => false

/-- A well-formed statement AST (`Assign` or `PrintStmt` over a
well-formed expression). -/
def stmtWF : Node → Bool
  | .assign _ e => exprWF e
  | .print e => exprWF e
  | _ => false

/-- Reference semantics, written from the spec's words (§3/§4.4): the
mathematically correct integer value of an expression tree under an
environment, with `UndefinedVariable` on an unbound name and
`DivisionByZero` on a zero divisor, division being floor division. -/
def specEval (env : String → Option Int) : Node → Except Err Int
  | .number n => .ok n
  | .var s =>
    match env s with
    | some v => .ok v
    | none => .error (.undefinedVar s)
  | .binop op l r => do
    let a ← specEval env l
    let b ← specEval env r
    match op with
    | .PLUS => .ok (a + b)
    | .MINUS => .ok (a - b)
    | .TIMES => .ok (a * b)
    | .DIVIDE => if b = 0 then .error .zeroDivision else .ok (a.fdiv b)
    | _ => .error (.opKeyError op.str)
  | _ => .error .typeError

/-- Reference semantics for a statement sequence, written from the
spec's words (§4.4/§6): thread the environment through assignments and
collect one printed value per `print`, halting at the first error.
Returns the final environment, the output, and the error if any. -/
def specExec : List Node → (String → Option Int) → List Int →
    ((String → Option Int) × List Int × Option Err)
  | [], env, out => (env, out, none)
  | stmt :: rest, env, out =>
    match stmt with
    | .assign n e =>
      match specEval env e with
      | .ok v => specExec rest (updateVar env n v) out
      | .error err => (env, out, some err)
    | .print e =>
      match specEval env e with
      | .ok v => specExec rest env (out ++ [v])
      | .error err => (env, out, some err)
    | _ => (env, out, some .typeError)

/-- Small-step transition relation of the VM, one constructor per
non-failing branch of the dispatch in `VM.run`; used to state that the
machine is deterministic. -/
inductive StepR : List Instr × VMState → List Instr × VMState → Prop where
  | push (n : Int) (rest : List Instr) (s : VMState) :
      StepR (.PUSH n :: rest, s) (rest, { s with stack := n :: s.stack })
  | load (name : String) (v : Int) (rest : List Instr) (s : VMState) :
      s.vars name = some v →
      StepR (.LOAD name :: rest, s) (rest, { s with stack := v :: s.stack })
  | store (name : String) (v : Int) (rest : List Instr) (stk : List Int)
      (s : VMState) : s.stack = v :: stk →
      StepR (.STORE name :: rest, s)
        (rest, ⟨stk, updateVar s.vars name v, s.output⟩)
  | add (a b : Int) (rest : List Instr) (stk : List Int) (s : VMState) :
      s.stack = b :: a :: stk →
      StepR (.ADD :: rest, s) (rest, { s with stack := (a + b) :: stk })
  | sub (a b : Int) (rest : List Instr) (stk : List Int) (s : VMState) :
      s.stack = b :: a :: stk →
      StepR (.SUB :: rest, s) (rest, { s with stack := (a - b) :: stk })
  | mul (a b : Int) (rest : List Instr) (stk : List Int) (s : VMState) :
      s.stack = b :: a :: stk →
      StepR (.MUL :: rest, s) (rest, { s with stack := (a * b) :: stk })
  | div (a b : Int) (rest : List Instr) (stk : List Int) (s : VMState) :
      s.stack = b :: a :: stk → b ≠ 0 →
      StepR (.DIV :: rest, s) (rest, { s with stack := (a.fdiv b) :: stk })
  | print (v : Int) (rest : List Instr) (stk : List Int) (s : VMState) :
      s.stack = v :: stk →
      StepR (.PRINT :: rest, s) (rest, ⟨stk, s.vars, s.output ++ [v]⟩)

/-- `bind` on a successful `Except` computation. -/
@[simp] theorem bindE_ok {α β : Type} (a : α) (f : α → Except Err β) :
    (Except.ok a >>= f : Except Err β) = f a := rfl

/-- `bind` on a failed `Except` computation. -/
@[simp] theorem bindE_error {α β : Type} (e : Err) (f : α → Except Err β) :
    (Except.error e >>= f : Except Err β) = Except.error e := rfl

/-- Executing appended code: run the first part; if it succeeds,
continue with the second from the reached state, else stop with the
first part's error. -/
theorem run_append (c1 c2 : List Instr) (s : VMState) :
    run (c1 ++ c2) s =
      match run c1 s with
      | (s', none) => run c2 s'
      | (s', some e) => (s', some e) := by
  induction c1 generalizing s with
  | nil => rfl
  | cons i is ih =>
    show run (i :: (is ++ c2)) s = _
    simp only [run]
    cases step i s with
    | ok s' => simp only [ih]
    | error e => rfl

/-- Compiler correctness for one well-formed expression: the generated
code, run from any state, pushes exactly the expression's value on
success (store and output untouched), and raises exactly the
evaluation error on failure (store and output untouched). -/
theorem gen_expr_run : ∀ (e : Node) (code : List Instr),
    exprWF e = true → gen e = .ok code → ∀ s : VMState,
    (∀ v, specEval s.vars e = .ok v →
      run code s = ({ s with stack := v :: s.stack }, none)) ∧
    (∀ err, specEval s.vars e = .error err →
      ∃ stk, run code s = (⟨stk, s.vars, s.output⟩, some err)) := by
  intro e
  induction e with
  | pyNone => intro code he; simp [exprWF] at he
  | number n =>
    intro code _ hc s
    simp only [gen, Except.ok.injEq] at hc
    subst hc
    refine ⟨fun v hv => ?_, fun err herr => ?_⟩
    · simp only [specEval, Except.ok.injEq] at hv
      subst hv
      rfl
    · simp [specEval] at herr
  | var name =>
    intro code _ hc s
    simp only [gen, Except.ok.injEq] at hc
    subst hc
    cases hvar : s.vars name with
    | some w =>
      refine ⟨fun v hv => ?_, fun err herr => ?_⟩
      · simp only [specEval, hvar, Except.ok.injEq] at hv
        subst hv
        simp [run, step, hvar]
      · simp [specEval, hvar] at herr
    | none =>
      refine ⟨fun v hv => ?_, fun err herr => ?_⟩
      · simp [specEval, hvar] at hv
      · simp only [specEval, hvar, Except.error.injEq] at herr
        subst herr
        exact ⟨s.stack, by simp [run, step, hvar]⟩
  | assign name e ih => intro code he; simp [exprWF] at he
  | print e ih => intro code he; simp [exprWF] at he
  | binop op l r ihl ihr =>
    intro code he hc s
    simp only [exprWF, Bool.and_eq_true] at he
    obtain ⟨⟨hop, hl⟩, hr⟩ := he
    cases hgl : gen l with
    | error e' => simp [gen, hgl, bindE_ok, bindE_error] at hc
    | ok cl =>
    cases hgr : gen r with
    | error e' => simp [gen, hgl, hgr, bindE_ok, bindE_error] at hc
    | ok cr =>
    cases hmap : opsMap op with
    | none => simp [gen, hgl, hgr, hmap, bindE_ok, bindE_error] at hc
    | some i =>
    have hcode : code = cl ++ (cr ++ [i]) := by
      simp only [gen, hgl, hgr, hmap, bindE_ok, bindE_error, Except.ok.injEq] at hc
      simp [← hc, List.append_assoc]
    subst hcode
    have hml := ihl cl hl hgl s
    refine ⟨fun v hv => ?_, fun err herr => ?_⟩
    · -- success of the whole expression
      cases hel : specEval s.vars l with
      | error e' => simp [specEval, hel, bindE_ok, bindE_error] at hv
      | ok a =>
      cases her : specEval s.vars r with
      | error e' => simp [specEval, hel, her, bindE_ok, bindE_error] at hv
      | ok b =>
      have hrunl := hml.1 a hel
      have hmr := ihr cr hr hgr { s with stack := a :: s.stack }
      have hrunr := hmr.1 b her
      simp only [run_append, hrunl, hrunr]
      simp only [specEval, hel, her, bindE_ok, bindE_error] at hv
      cases op <;> simp_all [isBinOpTok, opsMap]
      · -- PLUS
        subst hmap
        simp [run, step, hv]
      · -- MINUS
        subst hmap
        simp [run, step, hv]
      · -- TIMES
        subst hmap
        simp [run, step, hv]
      · -- DIVIDE
        subst hmap
        by_cases hb : b = 0
        · simp [hb] at hv
        · simp only [hb, if_false, Except.ok.injEq] at hv
          simp [run, step, hb, hv]
    · -- failure of the whole expression
      cases hel : specEval s.vars l with
      | error e' =>
        simp only [specEval, hel, bindE_ok, bindE_error, Except.error.injEq] at herr
        subst herr
        obtain ⟨stk, hstk⟩ := hml.2 e' hel
        simp only [run_append, hstk]
        exact ⟨stk, rfl⟩
      | ok a =>
      have hrunl := hml.1 a hel
      have hmr := ihr cr hr hgr { s with stack := a :: s.stack }
      cases her : specEval s.vars r with
      | error e' =>
        simp only [specEval, hel, her, bindE_ok, bindE_error, Except.error.injEq] at herr
        subst herr
        obtain ⟨stk, hstk⟩ := hmr.2 e' her
        simp only [run_append, hrunl, hstk]
        exact ⟨stk, rfl⟩
      | ok b =>
      have hrunr := hmr.1 b her
      simp only [run_append, hrunl, hrunr]
      simp only [specEval, hel, her, bindE_ok, bindE_error] at herr
      cases op <;> simp_all [isBinOpTok, opsMap]
      -- only DIVIDE can fail, with a zero divisor
      subst hmap
      by_cases hb : b = 0
      · subst hb
        simp at herr
        subst herr
        exact ⟨0 :: a :: s.stack, by simp [run, step]⟩
      · simp [hb] at herr

/-- Compiler correctness for a well-formed statement sequence: the
generated bytecode, run from any state, reproduces the reference
execution — same final store and output on success (operand stack
restored), and the same first error, store and output on failure. -/
theorem genProgram_run : ∀ (prog : List Node) (code : List Instr),
    (∀ st ∈ prog, stmtWF st = true) → genProgram prog = .ok code →
    ∀ s : VMState,
    (∀ env' out', specExec prog s.vars s.output = (env', out', none) →
      run code s = (⟨s.stack, env', out'⟩, none)) ∧
    (∀ env' out' err, specExec prog s.vars s.output = (env', out', some err) →
      ∃ stk, run code s = (⟨stk, env', out'⟩, some err)) := by
  intro prog
  induction prog with
  | nil =>
    intro code _ hc s
    simp only [genProgram, Except.ok.injEq] at hc
    subst hc
    refine ⟨fun env' out' h => ?_, fun env' out' err h => ?_⟩
    · simp only [specExec, Prod.mk.injEq] at h
      obtain ⟨h1, h2, -⟩ := h
      subst h1
      subst h2
      rfl
    · simp [specExec] at h
  | cons stmt rest ih =>
    intro code hw hc s
    have hws : stmtWF stmt = true := hw stmt (by simp)
    have hwr : ∀ st ∈ rest, stmtWF st = true := fun st hst => hw st (by simp [hst])
    cases hgs : gen stmt with
    | error e => simp [genProgram, hgs] at hc
    | ok cs =>
    cases hgp : genProgram rest with
    | error e => simp [genProgram, hgs, hgp] at hc
    | ok crest =>
    have hcode : code = cs ++ crest := by
      simp only [genProgram, hgs, hgp, bindE_ok, Except.ok.injEq] at hc
      exact hc.symm
    subst hcode
    cases stmt with
    | pyNone => simp [stmtWF] at hws
    | number n => simp [stmtWF] at hws
    | var nm => simp [stmtWF] at hws
    | binop op l r => simp [stmtWF] at hws
    | assign nm e =>
      have hwe : exprWF e = true := by simpa [stmtWF] using hws
      cases hge : gen e with
      | error e' => simp [gen, hge] at hgs
      | ok ce =>
      have hcs : cs = ce ++ [Instr.STORE nm] := by
        simp only [gen, hge, bindE_ok, Except.ok.injEq] at hgs
        exact hgs.symm
      subst hcs
      have hme := gen_expr_run e ce hwe hge s
      refine ⟨fun env' out' h => ?_, fun env' out' err h => ?_⟩
      · cases hev : specEval s.vars e with
        | error e0 => simp [specExec, hev] at h
        | ok v =>
          have hrun_e := hme.1 v hev
          simp only [specExec, hev] at h
          simp only [List.append_assoc, List.singleton_append, run_append,
            hrun_e, run, step]
          exact (ih crest hwr hgp ⟨s.stack, updateVar s.vars nm v, s.output⟩).1
            env' out' h
      · cases hev : specEval s.vars e with
        | error e0 =>
          simp only [specExec, hev, Prod.mk.injEq, Option.some.injEq] at h
          obtain ⟨h1, h2, h3⟩ := h
          subst h1
          subst h2
          subst h3
          obtain ⟨stk, hstk⟩ := hme.2 e0 hev
          refine ⟨stk, ?_⟩
          simp only [List.append_assoc, run_append, hstk]
        | ok v =>
          have hrun_e := hme.1 v hev
          simp only [specExec, hev] at h
          obtain ⟨stk, hstk⟩ :=
            (ih crest hwr hgp ⟨s.stack, updateVar s.vars nm v, s.output⟩).2
              env' out' err h
          refine ⟨stk, ?_⟩
          simp only [List.append_assoc, List.singleton_append, run_append,
            hrun_e, run, step]
          exact hstk
    | print e =>
      have hwe : exprWF e = true := by simpa [stmtWF] using hws
      cases hge : gen e with
      | error e' => simp [gen, hge] at hgs
      | ok ce =>
      have hcs : cs = ce ++ [Instr.PRINT] := by
        simp only [gen, hge, bindE_ok, Except.ok.injEq] at hgs
        exact hgs.symm
      subst hcs
      have hme := gen_expr_run e ce hwe hge s
      refine ⟨fun env' out' h => ?_, fun env' out' err h => ?_⟩
      · cases hev : specEval s.vars e with
        | error e0 => simp [specExec, hev] at h
        | ok v =>
          have hrun_e := hme.1 v hev
          simp only [specExec, hev] at h
          simp only [List.append_assoc, List.singleton_append, run_append,
            hrun_e, run, step]
          exact (ih crest hwr hgp ⟨s.stack, s.vars, s.output ++ [v]⟩).1
            env' out' h
      · cases hev : specEval s.vars e with
        | error e0 =>
          simp only [specExec, hev, Prod.mk.injEq, Option.some.injEq] at h
          obtain ⟨h1, h2, h3⟩ := h
          subst h1
          subst h2
          subst h3
          obtain ⟨stk, hstk⟩ := hme.2 e0 hev
          refine ⟨stk, ?_⟩
          simp only [List.append_assoc, run_append, hstk]
        | ok v =>
          have hrun_e := hme.1 v hev
          simp only [specExec, hev] at h
          obtain ⟨stk, hstk⟩ :=
            (ih crest hwr hgp ⟨s.stack, s.vars, s.output ++ [v]⟩).2
              env' out' err h
          refine ⟨stk, ?_⟩
          simp only [List.append_assoc, List.singleton_append, run_append,
            hrun_e, run, step]
          exact hstk

/-- An expression evaluation error is never a stack underflow. -/
theorem specEval_not_underflow : ∀ (e : Node) (env : String → Option Int)
    (err : Err), exprWF e = true → specEval env e = .error err →
    err ≠ .stackUnderflow := by
  intro e
  induction e with
  | pyNone => intro env err he; simp [exprWF] at he
  | number n => intro env err _ h; simp [specEval] at h
  | var name =>
    intro env err _ h
    cases hv : env name with
    | some w => simp [specEval, hv] at h
    | none =>
      simp only [specEval, hv, Except.error.injEq] at h
      subst h
      intro hcon
      cases hcon
  | assign name e ih => intro env err he; simp [exprWF] at he
  | print e ih => intro env err he; simp [exprWF] at he
  | binop op l r ihl ihr =>
    intro env err he h
    simp only [exprWF, Bool.and_eq_true] at he
    obtain ⟨⟨hop, hl⟩, hr⟩ := he
    cases hel : specEval env l with
    | error e0 =>
      simp only [specEval, hel, bindE_error, Except.error.injEq] at h
      subst h
      exact ihl env e0 hl hel
    | ok a =>
    cases her : specEval env r with
    | error e0 =>
      simp only [specEval, hel, her, bindE_ok, bindE_error, Except.error.injEq] at h
      subst h
      exact ihr env e0 hr her
    | ok b =>
    simp only [specEval, hel, her, bindE_ok] at h
    cases op <;> simp_all [isBinOpTok]
    by_cases hb : b = 0
    · subst hb
      simp at h
      subst h
      intro hcon
      cases hcon
    · simp [hb] at h

/-- A reference-execution error is never a stack underflow. -/
theorem specExec_not_underflow : ∀ (prog : List Node)
    (env : String → Option Int) (out : List Int)
    (env' : String → Option Int) (out' : List Int) (err : Err),
    (∀ st ∈ prog, stmtWF st = true) →
    specExec prog env out = (env', out', some err) →
    err ≠ .stackUnderflow := by
  intro prog
  induction prog with
  | nil => intro env out env' out' err _ h; simp [specExec] at h
  | cons stmt rest ih =>
    intro env out env' out' err hw h
    have hws : stmtWF stmt = true := hw stmt (by simp)
    have hwr : ∀ st ∈ rest, stmtWF st = true := fun st hst => hw st (by simp [hst])
    cases stmt with
    | pyNone => simp [stmtWF] at hws
    | number n => simp [stmtWF] at hws
    | var nm => simp [stmtWF] at hws
    | binop op l r => simp [stmtWF] at hws
    | assign nm e =>
      have hwe : exprWF e = true := by simpa [stmtWF] using hws
      cases hev : specEval env e with
      | error e0 =>
        simp only [specExec, hev, Prod.mk.injEq, Option.some.injEq] at h
        obtain ⟨-, -, h3⟩ := h
        subst h3
        exact specEval_not_underflow e env e0 hwe hev
      | ok v =>
        simp only [specExec, hev] at h
        exact ih (updateVar env nm v) out env' out' err hwr h
    | print e =>
      have hwe : exprWF e = true := by simpa [stmtWF] using hws
      cases hev : specEval env e with
      | error e0 =>
        simp only [specExec, hev, Prod.mk.injEq, Option.some.injEq] at h
        obtain ⟨-, -, h3⟩ := h
        subst h3
        exact specEval_not_underflow e env e0 hwe hev
      | ok v =>
        simp only [specExec, hev] at h
        exact ih env (out ++ [v]) env' out' err hwr h

/-- A successful step of any instruction other than `Store(name)`
leaves the binding of `name` unchanged. -/
theorem step_preserves_var {i : Instr} {s s' : VMState} (name : String)
    (hi : i ≠ .STORE name) (h : step i s = .ok s') :
    s'.vars name = s.vars name := by
  cases i with
  | PUSH n =>
    simp only [step, Except.ok.injEq] at h
    subst h
    rfl
  | LOAD m =>
    cases hv : s.vars m with
    | some w =>
      simp only [step, hv, Except.ok.injEq] at h
      subst h
      rfl
    | none => simp [step, hv] at h
  | STORE m =>
    cases hs : s.stack with
    | nil => simp [step, hs] at h
    | cons v stk =>
      simp only [step, hs, Except.ok.injEq] at h
      subst h
      have hm : name ≠ m := fun hnm => hi (by rw [hnm])
      simp [updateVar, hm]
  | ADD =>
    cases hs : s.stack with
    | nil => simp [step, hs] at h
    | cons b s2 =>
      cases s2 with
      | nil => simp [step, hs] at h
      | cons a stk =>
        simp only [step, hs, Except.ok.injEq] at h
        subst h
        rfl
  | SUB =>
    cases hs : s.stack with
    | nil => simp [step, hs] at h
    | cons b s2 =>
      cases s2 with
      | nil => simp [step, hs] at h
      | cons a stk =>
        simp only [step, hs, Except.ok.injEq] at h
        subst h
        rfl
  | MUL =>
    cases hs : s.stack with
    | nil => simp [step, hs] at h
    | cons b s2 =>
      cases s2 with
      | nil => simp [step, hs] at h
      | cons a stk =>
        simp only [step, hs, Except.ok.injEq] at h
        subst h
        rfl
  | DIV =>
    cases hs : s.stack with
    | nil => simp [step, hs] at h
    | cons b s2 =>
      cases s2 with
      | nil => simp [step, hs] at h
      | cons a stk =>
        by_cases hb : b = 0
        · simp [step, hs, hb] at h
        · simp only [step, hs, if_neg hb, Except.ok.injEq] at h
          subst h
          rfl
  | PRINT =>
    cases hs : s.stack with
    | nil => simp [step, hs] at h
    | cons v stk =>
      simp only [step, hs, Except.ok.injEq] at h
      subst h
      rfl

/-- Running code that contains no `Store(name)` never changes (in
particular never creates) the binding of `name`, whether the run
completes or halts on an error. -/
theorem run_preserves_var : ∀ (code : List Instr) (s : VMState)
    (name : String), Instr.STORE name ∉ code →
    ((run code s).1).vars name = s.vars name := by
  intro code
  induction code with
  | nil => intro s name _; rfl
  | cons i is ih =>
    intro s name hmem
    simp only [List.mem_cons, not_or] at hmem
    obtain ⟨hi, his⟩ := hmem
    show (run (i :: is) s).1.vars name = s.vars name
    simp only [run]
    cases h : step i s with
    | ok s' =>
      have h1 := step_preserves_var name (fun hc => hi hc.symm) h
      simp only [ih s' name his]
      exact h1
    | error e => rfl

/-- The VM's transition relation is deterministic: a configuration has
at most one successor. -/
theorem stepR_deterministic {c c1 c2 : List Instr × VMState}
    (h1 : StepR c c1) (h2 : StepR c c2) : c1 = c2 := by
  cases h1 <;> cases h2 <;> simp_all

/-- The executable `step` agrees with the transition relation: every
successful step is a `StepR` transition. -/
theorem step_sound_stepR : ∀ (i : Instr) (rest : List Instr)
    (s s' : VMState), step i s = .ok s' → StepR (i :: rest, s) (rest, s') := by
  intro i rest s s' h
  cases i with
  | PUSH n =>
    simp only [step, Except.ok.injEq] at h
    subst h
    exact .push n rest s
  | LOAD name =>
    cases hv : s.vars name with
    | some v =>
      simp only [step, hv, Except.ok.injEq] at h
      subst h
      exact .load name v rest s hv
    | none => simp [step, hv] at h
  | STORE name =>
    cases hs : s.stack with
    | nil => simp [step, hs] at h
    | cons v stk =>
      simp only [step, hs, Except.ok.injEq] at h
      subst h
      exact .store name v rest stk s hs
  | ADD =>
    cases hs : s.stack with
    | nil => simp [step, hs] at h
    | cons b s2 =>
      cases s2 with
      | nil => simp [step, hs] at h
      | cons a stk =>
        simp only [step, hs, Except.ok.injEq] at h
        subst h
        exact .add a b rest stk s hs
  | SUB =>
    cases hs : s.stack with
    | nil => simp [step, hs] at h
    | cons b s2 =>
      cases s2 with
      | nil => simp [step, hs] at h
      | cons a stk =>
        simp only [step, hs, Except.ok.injEq] at h
        subst h
        exact .sub a b rest stk s hs
  | MUL =>
    cases hs : s.stack with
    | nil => simp [step, hs] at h
    | cons b s2 =>
      cases s2 with
      | nil => simp [step, hs] at h
      | cons a stk =>
        simp only [step, hs, Except.ok.injEq] at h
        subst h
        exact .mul a b rest stk s hs
  | DIV =>
    cases hs : s.stack with
    | nil => simp [step, hs] at h
    | cons b s2 =>
      cases s2 with
      | nil => simp [step, hs] at h
      | cons a stk =>
        by_cases hb : b = 0
        · simp [step, hs, hb] at h
        · simp only [step, hs, if_neg hb, Except.ok.injEq] at h
          subst h
          exact .div a b rest stk s hs hb
  | PRINT =>
    cases hs : s.stack with
    | nil => simp [step, hs] at h
    | cons v stk =>
      simp only [step, hs, Except.ok.injEq] at h
      subst h
      exact .print v rest stk s hs

/-- The parser state reached after reading the first token of `1 = 2`. -/
def stuckState : PState := ⟨" = 2".data, Token.NUMBER 1⟩

/-- On a leading NUMBER token, `statement` returns `None` and consumes
nothing (the Python method's missing else branch). -/
theorem statement_stuckState : ∀ fuel : Nat,
    statement (fuel + 1) stuckState = .ok (.pyNone, stuckState) :=
  fun _ => rfl

/-- `Parser.parse` on `1 = 2` never terminates: the loop keeps calling
`statement`, which consumes no input, so every fuel budget runs out. -/
theorem parseLoop_stuckState : ∀ (fuel : Nat) (acc : List Node),
    parseLoop fuel stuckState acc = .error .outOfFuel := by
  intro fuel
  induction fuel with
  | zero => intro acc; rfl
  | succ f ihf =>
    intro acc
    cases f with
    | zero => rfl
    | succ g =>
      show parseLoop (g + 1 + 1) stuckState acc = _
      simp only [parseLoop, statement_stuckState, bindE_ok]
      exact ihf (Node.pyNone :: acc)

/-- Any unrecognized character (not a digit, letter, or one of the
seven operator/punctuation characters) at the start of the remaining
input makes the lexer raise `Unknown character`. -/
theorem nextToken_unknown : ∀ (input : List Char) (c : Char)
    (rest : List Char), skipSpaces input = c :: rest →
    c.isDigit = false → c.isAlpha = false →
    c ∉ ['+', '-', '*', '/', '(', ')', '='] →
    nextToken input = .error (.lexError c) := by
  intro input c rest hskip hd ha hmem
  simp only [List.mem_cons, List.mem_singleton, not_or] at hmem
  obtain ⟨h1, h2, h3, h4, h5, h6, h7⟩ := hmem
  simp [nextToken, hskip, hd, ha, h1, h2, h3, h4, h5, h6, h7]

/-- Floor division bounds for a positive divisor: `a.fdiv b` is the
greatest integer with `b * (a.fdiv b) ≤ a`. -/
theorem fdiv_floor_bounds (a b : Int) (hb : 0 < b) :
    b * (a.fdiv b) ≤ a ∧ a < b * (a.fdiv b + 1) := by
  have h1 := Int.fdiv_add_fmod a b
  have h2 := Int.fmod_nonneg' a hb
  have h3 := Int.fmod_lt_of_pos a hb
  constructor
  · linarith
  · have h4 : b * (a.fdiv b + 1) = b * a.fdiv b + b := by ring
    linarith

/-- C1: for every valid (well-formed) program, running the generated
bytecode on a fresh VM yields exactly the reference semantics' store and
printed output — each `print e` emits the mathematically correct value
of `e`; in particular the pipeline maps the source
`"x = 3 + 4 * 2\ny = x - 5\nprint y"` to exactly the output line `"6"`
(precedence: `x = 11`, `y = 6`). -/
theorem c1_print_outputs_correct_value :
    (∀ (prog : List Node) (code : List Instr) (env' : String → Option Int)
      (out' : List Int), (∀ st ∈ prog, stmtWF st = true) →
      genProgram prog = .ok code →
      specExec prog (fun _ => none) [] = (env', out', none) →
      run code VMState.init = (⟨[], env', out'⟩, none)) ∧
    runCompiler 99 "x = 3 + 4 * 2\ny = x - 5\nprint y" = .ok ["6"] :=
  ⟨fun prog code env' out' hw hc h =>
    (genProgram_run prog code hw hc VMState.init).1 env' out' h, rfl⟩

/-- C1 witness: the single-statement program `print 5` satisfies every
hypothesis and runs to the output `[5]`. -/
theorem c1_witness :
    run [Instr.PUSH 5, Instr.PRINT] VMState.init =
      (⟨[], fun _ => none, [5]⟩, none) :=
  c1_print_outputs_correct_value.1 [Node.print (Node.number 5)]
    [Instr.PUSH 5, Instr.PRINT] (fun _ => none) [5]
    (by simp [stmtWF, exprWF]) rfl rfl

/-- C2: the claim asks that parsing `"1 = 2"` fail with a ParseError;
instead the Python parser never terminates on it — `statement()` falls
through on a leading NUMBER token, returning `None` without consuming
input, so `parse()` loops forever.  In the fuel model: every fuel
budget is exhausted. -/
theorem c2_parse_diverges : ∀ fuel : Nat,
    runCompiler fuel "1 = 2" = .err [] .outOfFuel := by
  intro fuel
  have hp : parse fuel "1 = 2".data = .error .outOfFuel := by
    have hmk : mkPState "1 = 2".data = .ok stuckState := rfl
    show (mkPState "1 = 2".data >>= fun st => parseLoop fuel st []) = _
    rw [hmk, bindE_ok]
    exact parseLoop_stuckState fuel []
  simp [runCompiler, hp]

/-- C3: the code generated for a well-formed expression, executed in
any state whose loads and divisions succeed, pushes exactly one value
(the expression's) and leaves the store and output untouched; and the
bytecode generated from any valid AST never raises `StackUnderflow`,
from any start state. -/
theorem c3_expr_stack_discipline :
    (∀ (e : Node) (code : List Instr) (s : VMState) (v : Int),
      exprWF e = true → gen e = .ok code → specEval s.vars e = .ok v →
      run code s = ({ s with stack := v :: s.stack }, none)) ∧
    (∀ (prog : List Node) (code : List Instr) (s : VMState),
      (∀ st ∈ prog, stmtWF st = true) → genProgram prog = .ok code →
      (run code s).2 ≠ some .stackUnderflow) := by
  constructor
  · intro e code s v he hc hv
    exact (gen_expr_run e code he hc s).1 v hv
  · intro prog code s hw hc
    rcases h : specExec prog s.vars s.output with ⟨env', out', err?⟩
    cases err? with
    | none =>
      have hr := (genProgram_run prog code hw hc s).1 env' out' h
      rw [hr]
      simp
    | some err =>
      obtain ⟨stk, hstk⟩ := (genProgram_run prog code hw hc s).2 env' out' err h
      have hne := specExec_not_underflow prog s.vars s.output env' out' err hw h
      rw [hstk]
      intro hcon
      exact hne (Option.some.inj hcon)

/-- C3 witness: the expression `5` and the program `print 5` satisfy
the hypotheses concretely. -/
theorem c3_witness :
    run [Instr.PUSH 5] VMState.init =
      ({ VMState.init with stack := [5] }, none) ∧
    (run [Instr.PUSH 5, Instr.PRINT] VMState.init).2 ≠ some .stackUnderflow :=
  ⟨c3_expr_stack_discipline.1 (Node.number 5) [Instr.PUSH 5] VMState.init 5
      rfl rfl rfl,
   c3_expr_stack_discipline.2 [Node.print (Node.number 5)]
      [Instr.PUSH 5, Instr.PRINT] VMState.init (by simp [stmtWF, exprWF]) rfl⟩

/-- C4: a `Load(n)` in a state where `n` is unbound fails with
`UndefinedVariable(n)` (no silent default); running code that contains
no `Store(n)` never creates a binding for `n`; and the source
`"print z"` fails with `UndefinedVariable("z")` having printed
nothing. -/
theorem c4_load_undefined :
    (∀ (name : String) (s : VMState), s.vars name = none →
      step (.LOAD name) s = .error (.undefinedVar name)) ∧
    (∀ (code : List Instr) (s : VMState) (name : String),
      Instr.STORE name ∉ code → ((run code s).1).vars name = s.vars name) ∧
    runCompiler 99 "print z" = .err [] (.undefinedVar "z") := by
  refine ⟨fun name s h => ?_, run_preserves_var, rfl⟩
  simp [step, h]

/-- C4 witness: loading `z` from the fresh store fails; pushing a
constant stores nothing. -/
theorem c4_witness :
    step (.LOAD "z") VMState.init = .error (.undefinedVar "z") ∧
    ((run [Instr.PUSH 3] VMState.init).1).vars "z" = VMState.init.vars "z" :=
  ⟨c4_load_undefined.1 "z" VMState.init rfl,
   c4_load_undefined.2.1 [Instr.PUSH 3] VMState.init "z" (by decide)⟩

/-- C5: a `Div` whose divisor operand (the value pushed last, i.e. the
top of stack) is zero makes the VM fail with `DivisionByZero`: the step
raises the error, the run halts there with no result pushed, and the
end-to-end source `"print 1 / 0"` fails the same way. -/
theorem c5_div_by_zero :
    ∀ (a : Int) (stk : List Int) (env : String → Option Int)
      (out : List Int) (rest : List Instr),
      step .DIV ⟨0 :: a :: stk, env, out⟩ = .error .zeroDivision ∧
      run (.DIV :: rest) ⟨0 :: a :: stk, env, out⟩ =
        (⟨0 :: a :: stk, env, out⟩, some .zeroDivision) ∧
      runCompiler 99 "print 1 / 0" = .err [] .zeroDivision :=
  fun _ _ _ _ _ => ⟨rfl, rfl, rfl⟩

/-- C6: `Div` computes floor division: for a nonzero divisor it pushes
`a.fdiv b`; `-7` divided by `2` pushes `-4` (not `-3`); for a positive
divisor the result is the greatest integer whose product with the
divisor is at most the dividend (truncation toward negative infinity);
and `"print 10 / 3"` outputs exactly `"3"`. -/
theorem c6_floor_division :
    (∀ (a b : Int) (stk : List Int) (env : String → Option Int)
      (out : List Int), b ≠ 0 →
      step .DIV ⟨b :: a :: stk, env, out⟩ = .ok ⟨a.fdiv b :: stk, env, out⟩) ∧
    (∀ (env : String → Option Int) (out : List Int),
      step .DIV ⟨[2, -7], env, out⟩ = .ok ⟨[-4], env, out⟩) ∧
    (∀ (a b : Int), 0 < b → b * (a.fdiv b) ≤ a ∧ a < b * (a.fdiv b + 1)) ∧
    runCompiler 99 "print 10 / 3" = .ok ["3"] := by
  refine ⟨fun a b stk env out hb => ?_, fun env out => rfl, fdiv_floor_bounds, rfl⟩
  simp [step, hb]

/-- C6 witness: dividing `-7` by `2` through the theorem's general
clauses. -/
theorem c6_witness :
    step .DIV ⟨[2, -7], fun _ => none, []⟩ =
      .ok ⟨[(-7 : Int).fdiv 2], fun _ => none, []⟩ ∧
    (2 * ((-7 : Int).fdiv 2) ≤ -7 ∧ (-7 : Int) < 2 * ((-7 : Int).fdiv 2 + 1)) :=
  ⟨c6_floor_division.1 (-7) 2 [] (fun _ => none) [] (by decide),
   c6_floor_division.2.2.1 (-7) 2 (by decide)⟩

/-- C7: the code for `BinaryOp(op, l, r)` is left code, then right
code, then the operator instruction; each arithmetic instruction pops
`b` then `a` (`b` on top, pushed last) and pushes `a op b`; hence
`"print 7 - 5"` outputs `"2"`, not `"-2"`. -/
theorem c7_binop_order :
    (∀ (op : TokenType) (l r : Node) (cl cr : List Instr) (i : Instr),
      gen l = .ok cl → gen r = .ok cr → opsMap op = some i →
      gen (.binop op l r) = .ok (cl ++ cr ++ [i])) ∧
    (∀ (a b : Int) (stk : List Int) (env : String → Option Int)
      (out : List Int),
      step .ADD ⟨b :: a :: stk, env, out⟩ = .ok ⟨(a + b) :: stk, env, out⟩ ∧
      step .SUB ⟨b :: a :: stk, env, out⟩ = .ok ⟨(a - b) :: stk, env, out⟩ ∧
      step .MUL ⟨b :: a :: stk, env, out⟩ = .ok ⟨(a * b) :: stk, env, out⟩ ∧
      (b ≠ 0 → step .DIV ⟨b :: a :: stk, env, out⟩ =
        .ok ⟨(a.fdiv b) :: stk, env, out⟩)) ∧
    runCompiler 99 "print 7 - 5" = .ok ["2"] := by
  refine ⟨fun op l r cl cr i hl hr hm => ?_,
    fun a b stk env out => ⟨rfl, rfl, rfl, fun hb => ?_⟩, rfl⟩
  · simp [gen, hl, hr, hm, List.append_assoc]
  · simp [step, hb]

/-- C7 witness: generating `7 - 5` and stepping a division with the
divisor on top. -/
theorem c7_witness :
    gen (.binop .MINUS (.number 7) (.number 5)) =
      .ok ([Instr.PUSH 7] ++ [Instr.PUSH 5] ++ [Instr.SUB]) ∧
    step .DIV ⟨[2, 9], fun _ => none, []⟩ =
      .ok ⟨[(9 : Int).fdiv 2], fun _ => none, []⟩ :=
  ⟨c7_binop_order.1 .MINUS (.number 7) (.number 5) [Instr.PUSH 7]
      [Instr.PUSH 5] Instr.SUB rfl rfl rfl,
   (c7_binop_order.2.1 9 2 [] (fun _ => none) []).2.2.2 (by decide)⟩

/-- C8 counterexample: on `"x = 3 & 2"` the pipeline fails with the
lexer's error carrying only the character `&`; the raised message is
`"Unknown character: &"`, which contains no digit at all, so it cannot
identify position 6 (or any position) of the offending character. -/
theorem c8_counterexample :
    runCompiler 99 "x = 3 & 2" = .err [] (.lexError '&') ∧
    lexErrorMessage '&' = "Unknown character: &" ∧
    (lexErrorMessage '&').data.filter Char.isDigit = [] :=
  ⟨rfl, rfl, rfl⟩

/-- C8 (amended): when the lexer reaches a character that is not a
digit, letter, or one of `+ - * / ( ) =`, it fails with an error
identifying the offending character — but not its position; in
particular `"x = 3 & 2"` fails identifying `&`. -/
theorem c8_lex_error_identifies_char :
    (∀ (input : List Char) (c : Char) (rest : List Char),
      skipSpaces input = c :: rest → c.isDigit = false → c.isAlpha = false →
      c ∉ ['+', '-', '*', '/', '(', ')', '='] →
      nextToken input = .error (.lexError c)) ∧
    runCompiler 99 "x = 3 & 2" = .err [] (.lexError '&') ∧
    lexErrorMessage '&' = "Unknown character: &" :=
  ⟨nextToken_unknown, rfl, rfl⟩

/-- C8 witness: the input `"&"` satisfies the hypotheses concretely. -/
theorem c8_witness : nextToken "&".data = .error (.lexError '&') :=
  c8_lex_error_identifies_char.1 "&".data '&' [] rfl (by decide) (by decide)
    (by decide)

/-- C9: execution is deterministic — the VM transition relation admits
at most one successor per configuration, every successful `step` is
such a transition, and the whole pipeline is a function of the source
string alone: two runs of `run_compiler` on the same source agree. -/
theorem c9_deterministic :
    (∀ (c c1 c2 : List Instr × VMState), StepR c c1 → StepR c c2 → c1 = c2) ∧
    (∀ (i : Instr) (rest : List Instr) (s s' : VMState),
      step i s = .ok s' → StepR (i :: rest, s) (rest, s')) ∧
    (∀ (fuel : Nat) (src : String) (r1 r2 : RunResult),
      runCompiler fuel src = r1 → runCompiler fuel src = r2 → r1 = r2) :=
  ⟨fun _ _ _ h1 h2 => stepR_deterministic h1 h2, step_sound_stepR,
   fun _ _ _ _ h1 h2 => h1.symm.trans h2⟩

/-- C9 witness: both determinism clauses applied to a concrete `PUSH`
configuration and a concrete source. -/
theorem c9_witness :
    (((([] : List Instr), ⟨[(1 : Int)], VMState.init.vars, []⟩) :
        List Instr × VMState) =
      (([] : List Instr), ⟨[(1 : Int)], VMState.init.vars, []⟩)) ∧
    StepR ([Instr.PUSH 1], VMState.init)
      ([], ⟨[(1 : Int)], VMState.init.vars, []⟩) ∧
    RunResult.ok ["1"] = RunResult.ok ["1"] :=
  ⟨c9_deterministic.1 ([Instr.PUSH 1], VMState.init) _ _
      (.push 1 [] VMState.init) (.push 1 [] VMState.init),
   c9_deterministic.2.1 (Instr.PUSH 1) [] VMState.init
      ⟨[(1 : Int)], VMState.init.vars, []⟩ rfl,
   c9_deterministic.2.2 99 "print 1" (.ok ["1"]) (.ok ["1"]) rfl rfl⟩

/-- C10: arithmetic is exact unbounded integer arithmetic: `Add`,
`Sub` and `Mul` push the mathematically exact result for operands of
any magnitude (the stack holds mathematical integers, with no word
size or wraparound); a 27-digit times 9-digit multiplication runs
end-to-end to its exact 36-digit product. -/
theorem c10_exact_arithmetic :
    (∀ (a b : Int) (stk : List Int) (env : String → Option Int)
      (out : List Int),
      step .ADD ⟨b :: a :: stk, env, out⟩ = .ok ⟨(a + b) :: stk, env, out⟩ ∧
      step .SUB ⟨b :: a :: stk, env, out⟩ = .ok ⟨(a - b) :: stk, env, out⟩ ∧
      step .MUL ⟨b :: a :: stk, env, out⟩ = .ok ⟨(a * b) :: stk, env, out⟩) ∧
    runCompiler 99 "print 123456789123456789123456789 * 987654321" =
      .ok ["121932631234567900234567900112635269"] :=
  ⟨fun _ _ _ _ _ => ⟨rfl, rfl, rfl⟩, rfl⟩
